import Mathlib

/-!
Verification development for the `web` retry client of the repository
(`src/web/client.go`): the response/error classifiers `ShouldRetry` and
`IsTimeoutErr`, the decorrelated-jitter `Backoff` generator, and the retry
orchestrator `client.Do`. Go functions are embedded shallowly: machine `int`
becomes `Int` (no quantity here approaches the 64-bit range), the `rand.Intn`
draw becomes an explicit oracle argument whose contract is a hypothesis, the
send primitive `RequestWithClose` becomes a function argument, and `error`
values become `Option GoError`.
-/

namespace GolangWeb

/-- GoError models the Go error values the client inspects: either a plain
generic error, or a network error (`net.Error`) carrying the result of its
`Timeout()` method. A Go `nil` error is `Option.none` one level up. -/
inductive GoError where
  | generic (msg : String)
  | net (timeout : Bool) (msg : String)
deriving DecidableEq

/-- ShouldRetry from `src/web/client.go`: retry exactly on HTTP 408
(`http.StatusRequestTimeout`) or a status in the 5xx range. -/
def ShouldRetry (statusCode : Int) : Bool :=
  statusCode == 408 ||
    (decide (statusCode ≥ 500) && decide (statusCode ≤ 599))

/-- IsTimeoutErr from `src/web/client.go`: the type assertion `e.(net.Error)`
succeeds exactly on network errors, and then the `Timeout()` flag is
returned; every other value, including the nil error, yields false. -/
def IsTimeoutErr : Option GoError → Bool
  | some (GoError.net t _) => t
  | _ => false

/-- Backoff from `src/web/client.go`: the two configuration values of the
decorrelated-jitter generator. -/
structure Backoff where
  BaseSleep : Int
  MaxSleep : Int
deriving DecidableEq

/-- Backoff.Next from `src/web/client.go`. The call `rand.Intn(diff)` is
modelled by the oracle `randIntn`; the theorems that depend on it carry its
contract (a draw lies in `[0, diff)` whenever `diff > 0`) as a hypothesis. -/
def Backoff.Next (b : Backoff) (randIntn : Int → Int) (previous : Int) : Int :=
  let diff := previous * 3 - b.BaseSleep
  let diff := if diff ≤ 0 then 1 else diff
  let sleep := randIntn diff + b.BaseSleep
  if sleep > b.MaxSleep then b.MaxSleep else sleep

/-- Modelled from the spec wording of the decorrelated-jitter algorithm, for
comparison with `Backoff.Next`: compute `spread = previous*3 - baseDelay`,
clamp `spread` to 1 when `spread ≤ 0`, draw an integer in `[0, spread)`, add
`baseDelay` to obtain a candidate, and clamp the candidate to `maxDelay`
when it exceeds `maxDelay`. -/
def decorrelatedJitterSpec (baseDelay maxDelay : Int) (draw : Int → Int)
    (previous : Int) : Int :=
  let spread := previous * 3 - baseDelay
  let spread := if spread ≤ 0 then 1 else spread
  let candidate := draw spread + baseDelay
  if candidate > maxDelay then maxDelay else candidate

/-- C5: for every Backoff configuration with `0 < BaseSleep` and
`BaseSleep ≤ MaxSleep`, every `previous ≥ 0`, and every outcome of the
random draw satisfying the `rand.Intn` contract, `Backoff.Next previous`
lies in the closed interval `[BaseSleep, MaxSleep]`. -/
theorem backoff_next_in_range (b : Backoff) (randIntn : Int → Int) (previous : Int)
    (hbase : 0 < b.BaseSleep) (hmax : b.BaseSleep ≤ b.MaxSleep) (hprev : 0 ≤ previous)
    (hrand : ∀ n : Int, 0 < n → 0 ≤ randIntn n ∧ randIntn n < n) :
    b.BaseSleep ≤ b.Next randIntn previous ∧ b.Next randIntn previous ≤ b.MaxSleep := by
  simp only [Backoff.Next]
  set d := if previous * 3 - b.BaseSleep ≤ 0 then 1 else previous * 3 - b.BaseSleep with hd
  have hdpos : 0 < d := by
    rw [hd]; split <;> omega
  obtain ⟨hr1, hr2⟩ := hrand d hdpos
  constructor <;> split <;> omega

/-- Witness for C5: the default configuration `Backoff{100, 5000}`, the
all-zero draw and `previous = 0` stay within the bounds. -/
theorem backoff_next_in_range_witness :
    (100 : Int) ≤ Backoff.Next ⟨100, 5000⟩ (fun _ => 0) 0 ∧
      Backoff.Next ⟨100, 5000⟩ (fun _ => 0) 0 ≤ 5000 :=
  backoff_next_in_range ⟨100, 5000⟩ (fun _ => 0) 0 (by norm_num) (by norm_num)
    (by norm_num) (fun n hn => ⟨le_refl 0, hn⟩)

/-- C6: `Backoff.Next` computes exactly the decorrelated-jitter algorithm as
the spec states it, for every configuration, draw oracle and previous
value. -/
theorem backoff_next_eq_decorrelated_jitter (b : Backoff) (randIntn : Int → Int)
    (previous : Int) :
    b.Next randIntn previous =
      decorrelatedJitterSpec b.BaseSleep b.MaxSleep randIntn previous := rfl

/-- C7: `ShouldRetry statusCode` holds exactly when `statusCode` is 408 or
lies in `[500, 599]`, with the listed particular values. -/
theorem shouldRetry_characterisation :
    (∀ s : Int, ShouldRetry s = true ↔ (s = 408 ∨ (500 ≤ s ∧ s ≤ 599))) ∧
      ShouldRetry 200 = false ∧ ShouldRetry 400 = false ∧ ShouldRetry 408 = true ∧
      ShouldRetry 500 = true ∧ ShouldRetry 501 = true ∧ ShouldRetry 599 = true ∧
      ShouldRetry 600 = false := by
  refine ⟨fun s => ?_, by decide, by decide, by decide, by decide, by decide,
    by decide, by decide⟩
  simp only [ShouldRetry, Bool.or_eq_true, Bool.and_eq_true, beq_iff_eq,
    decide_eq_true_eq, ge_iff_le]

/-- C8: `IsTimeoutErr e` holds exactly when `e` is a network error whose
timeout flag is set; a nil error, a generic error and a non-timeout network
error all yield false. -/
theorem isTimeoutErr_characterisation :
    (∀ e : Option GoError, IsTimeoutErr e = true ↔ ∃ m, e = some (GoError.net true m)) ∧
      IsTimeoutErr none = false ∧
      (∀ m, IsTimeoutErr (some (GoError.generic m)) = false) ∧
      (∀ m, IsTimeoutErr (some (GoError.net false m)) = false) := by
  refine ⟨fun e => ?_, rfl, fun m => rfl, fun m => rfl⟩
  constructor
  · intro h
    match e, h with
    | some (GoError.net true m), _ => exact ⟨m, rfl⟩
  · rintro ⟨m, rfl⟩
    rfl

/-- C10: whenever `previous * 3 ≤ BaseSleep` (in particular at
`previous = 0`) and the draw obeys the `rand.Intn` contract, the clamped
spread is 1, the draw is forced to 0, and `Backoff.Next` deterministically
returns `min BaseSleep MaxSleep`. -/
theorem backoff_next_first_deterministic (b : Backoff) (randIntn : Int → Int)
    (previous : Int) (hbase : 1 ≤ b.BaseSleep) (hprev : previous * 3 ≤ b.BaseSleep)
    (hrand : ∀ n : Int, 0 < n → 0 ≤ randIntn n ∧ randIntn n < n) :
    b.Next randIntn previous = min b.BaseSleep b.MaxSleep := by
  obtain ⟨hr1, hr2⟩ := hrand 1 (by norm_num)
  have hr0 : randIntn 1 = 0 := by omega
  simp only [Backoff.Next]
  have hd : previous * 3 - b.BaseSleep ≤ 0 := by omega
  rw [if_pos hd, hr0]
  split <;> omega

/-- Witness for C10: with `Backoff{5000, 100}` (ceiling below the base, so
the minimum is the ceiling) and the all-zero draw, `Next 0` is exactly
`min 5000 100`. -/
theorem backoff_next_first_deterministic_witness :
    Backoff.Next ⟨5000, 100⟩ (fun _ => 0) 0 = min 5000 100 :=
  backoff_next_first_deterministic ⟨5000, 100⟩ (fun _ => 0) 0 (by norm_num)
    (by norm_num) (fun n hn => ⟨le_refl 0, hn⟩)

universe u

variable {β : Type u}

/-- Request as used by `client.Do`: the `Body` stream (nil or present) and
the optional `GetBody` capability producing a fresh body stream on demand;
the stream type `β` is abstract. `GetBody`'s discarded error return in Go
(`req.Body, _ = req.GetBody()`) is not modelled. -/
structure Request (β : Type u) where
  Body : Option β
  GetBody : Option (Unit → β)

/-- Result triple of the send primitive `RequestWithClose`: status code, raw
body bytes and error. -/
structure SendResult where
  status : Int
  body : List Nat
  err : Option GoError
deriving DecidableEq

/-- Result of `client.Do`: number of tries, final status, body and error.
The field `sent` is ghost instrumentation recording, for each invocation of
the send primitive, the 1-based attempt ordinal and the request `Body`
passed to it; it lets the theorems speak about how often, and with which
body, the send primitive was actually called. -/
structure DoResult (β : Type u) where
  tries : Int
  status : Int
  body : List Nat
  err : Option GoError
  sent : List (Int × Option β)

/-- Body-replay step of `client.Do` (lines 131-135 of `src/web/client.go`):
from the second attempt on, when the request has both a `Body` and a
`GetBody`, the `Body` is replaced by a fresh instance obtained from
`GetBody`. -/
def bodyReplay (tries : Int) (req : Request β) : Request β :=
  if tries > 1 then
    match req.Body, req.GetBody with
    | some _, some g => { req with Body := some (g ()) }
    | _, _ => req
  else req

/-- The `client` struct of `src/web/client.go`: configuration of the retry
client. The wrapped `http.Client` is replaced by the send primitive passed
to `Do`, so only `timeoutOnly` and the backoff remain. -/
structure client where
  timeoutOnly : Bool
  bk : Backoff

/-- Retry loop of `client.Do`. The Go `for` loop with counter `tries`
running while `tries ≤ maxTries` is rendered as recursion on the number of
iterations still allowed; `tries`, the backoff `wait`, the named results
`status`, `body`, `err` and the request are threaded exactly as in the
source (`time.Sleep` itself has no observable effect in this model, but the
`wait` update is kept). The send primitive receives the attempt ordinal and
the current request. When the allowance is exhausted the source executes
`tries--` and returns the last results. -/
def doAux (c : client) (send : Int → Request β → SendResult) (randIntn : Int → Int) :
    Nat → Int → Int → Int → List Nat → Option GoError → Request β →
      List (Int × Option β) → DoResult β
  | 0, tries, _, status, body, err, _, sent =>
      ⟨tries - 1, status, body, err, sent⟩
  | remaining + 1, tries, wait, _, _, _, req, sent =>
      let wait := c.bk.Next randIntn wait
      let req := bodyReplay tries req
      let r := send tries req
      let sent := sent ++ [(tries, req.Body)]
      if r.err.isSome then
        if !c.timeoutOnly || IsTimeoutErr r.err then
          doAux c send randIntn remaining (tries + 1) wait r.status r.body r.err req sent
        else
          ⟨tries, r.status, r.body, r.err, sent⟩
      else
        if ShouldRetry r.status then
          doAux c send randIntn remaining (tries + 1) wait r.status r.body r.err req sent
        else
          ⟨tries, r.status, r.body, r.err, sent⟩

/-- `client.Do` from `src/web/client.go`: the loop starts with `wait = 0`,
`tries = 1` and zero-valued named results, and runs at most `maxTries`
iterations. -/
def client.Do (c : client) (send : Int → Request β → SendResult)
    (randIntn : Int → Int) (req : Request β) (maxTries : Int) : DoResult β :=
  doAux c send randIntn maxTries.toNat 1 0 0 [] none req []

/-- Retry classification performed by one iteration of `client.Do` on a
send result: with an error present the iteration continues when
`timeoutOnly` is off or the error is a timeout; without an error it
continues when `ShouldRetry` accepts the status. -/
def continues (timeoutOnly : Bool) (r : SendResult) : Bool :=
  if r.err.isSome then !timeoutOnly || IsTimeoutErr r.err
  else ShouldRetry r.status

/-- One unfolding of the loop: a step either continues into the remaining
iterations or stops with the current send result, according to
`continues`. -/
theorem doAux_succ (c : client) (send : Int → Request β → SendResult)
    (randIntn : Int → Int) (n : Nat) (tries wait status : Int) (body : List Nat)
    (err : Option GoError) (req : Request β) (sent : List (Int × Option β)) :
    doAux c send randIntn (n + 1) tries wait status body err req sent =
      if continues c.timeoutOnly (send tries (bodyReplay tries req)) = true then
        doAux c send randIntn n (tries + 1) (c.bk.Next randIntn wait)
          (send tries (bodyReplay tries req)).status
          (send tries (bodyReplay tries req)).body
          (send tries (bodyReplay tries req)).err (bodyReplay tries req)
          (sent ++ [(tries, (bodyReplay tries req).Body)])
      else
        ⟨tries, (send tries (bodyReplay tries req)).status,
          (send tries (bodyReplay tries req)).body,
          (send tries (bodyReplay tries req)).err,
          sent ++ [(tries, (bodyReplay tries req).Body)]⟩ := by
  by_cases he : (send tries (bodyReplay tries req)).err.isSome = true
  · by_cases ht : (!c.timeoutOnly || IsTimeoutErr (send tries (bodyReplay tries req)).err) = true
    · simp [doAux, continues, he, ht]
    · simp [doAux, continues, he, ht]
  · by_cases hs : ShouldRetry (send tries (bodyReplay tries req)).status = true
    · simp [doAux, continues, he, hs]
    · simp [doAux, continues, he, hs]

/-- The loop issues one send per iteration executed: the returned `tries`
exceeds the entry counter minus one by exactly the number of sends recorded,
that number is at most the iteration allowance, and it is positive whenever
the allowance is. -/
theorem doAux_count (c : client) (send : Int → Request β → SendResult)
    (randIntn : Int → Int) :
    ∀ (fuel : Nat) (tries wait status : Int) (body : List Nat) (err : Option GoError)
      (req : Request β) (sent : List (Int × Option β)),
      ∃ k : Nat, k ≤ fuel ∧ (0 < fuel → 0 < k) ∧
        (doAux c send randIntn fuel tries wait status body err req sent).tries =
          tries - 1 + k ∧
        (doAux c send randIntn fuel tries wait status body err req sent).sent.length =
          sent.length + k := by
  intro fuel
  induction fuel with
  | zero =>
    intro tries wait status body err req sent
    exact ⟨0, le_refl 0, by omega, by simp [doAux], by simp [doAux]⟩
  | succ n ih =>
    intro tries wait status body err req sent
    rw [doAux_succ]
    by_cases hc : continues c.timeoutOnly (send tries (bodyReplay tries req)) = true
    · rw [if_pos hc]
      obtain ⟨k, hk1, hk2, hk3, hk4⟩ := ih (tries + 1) (c.bk.Next randIntn wait)
        (send tries (bodyReplay tries req)).status
        (send tries (bodyReplay tries req)).body
        (send tries (bodyReplay tries req)).err (bodyReplay tries req)
        (sent ++ [(tries, (bodyReplay tries req).Body)])
      refine ⟨k + 1, by omega, by omega, by omega, ?_⟩
      rw [hk4]
      simp
      omega
    · rw [if_neg hc]
      exact ⟨1, by omega, by omega, by simp, by simp⟩

/-- When the send primitive depends only on the attempt ordinal, the loop
entered at counter `tries` stops at the first attempt `i` whose result is
not retry-classified, returning exactly that attempt's results and having
recorded exactly the attempts `tries` through `i`. -/
theorem doAux_stop_at (c : client) (f : Int → SendResult) (randIntn : Int → Int)
    (i : Int) :
    ∀ (fuel : Nat) (tries wait status : Int) (body : List Nat) (err : Option GoError)
      (req : Request β) (sent : List (Int × Option β)),
      tries ≤ i → i < tries + (fuel : Int) →
      (∀ j : Int, tries ≤ j → j < i → continues c.timeoutOnly (f j) = true) →
      continues c.timeoutOnly (f i) = false →
      ∃ bs : List (Int × Option β),
        (doAux c (fun k _ => f k) randIntn fuel tries wait status body err req sent).tries
            = i ∧
        (doAux c (fun k _ => f k) randIntn fuel tries wait status body err req sent).status
            = (f i).status ∧
        (doAux c (fun k _ => f k) randIntn fuel tries wait status body err req sent).body
            = (f i).body ∧
        (doAux c (fun k _ => f k) randIntn fuel tries wait status body err req sent).err
            = (f i).err ∧
        (doAux c (fun k _ => f k) randIntn fuel tries wait status body err req sent).sent
            = sent ++ bs ∧
        (bs.length : Int) = i - tries + 1 := by
  intro fuel
  induction fuel with
  | zero =>
    intro tries wait status body err req sent hlo hhi hprior hstop
    simp only [Nat.cast_zero] at hhi
    omega
  | succ n ih =>
    intro tries wait status body err req sent hlo hhi hprior hstop
    rw [doAux_succ]
    by_cases heq : tries = i
    · subst heq
      rw [if_neg (by simpa using hstop)]
      exact ⟨[(tries, (bodyReplay tries req).Body)], rfl, rfl, rfl, rfl, rfl, by simp⟩
    · have hlt : tries < i := by omega
      have hc : continues c.timeoutOnly (f tries) = true :=
        hprior tries (le_refl tries) hlt
      rw [if_pos (by simpa using hc)]
      obtain ⟨bs, h1, h2, h3, h4, h5, h6⟩ := ih (tries + 1) (c.bk.Next randIntn wait)
        (f tries).status (f tries).body (f tries).err (bodyReplay tries req)
        (sent ++ [(tries, (bodyReplay tries req).Body)]) (by omega)
        (by push_cast at hhi ⊢; omega)
        (fun j hj1 hj2 => hprior j (by omega) hj2) hstop
      refine ⟨(tries, (bodyReplay tries req).Body) :: bs, h1, h2, h3, h4, ?_, ?_⟩
      · rw [h5]; simp
      · simp at h6 ⊢; omega

/-- When the send primitive depends only on the attempt ordinal and every
attempt within the allowance is retry-classified, the loop exhausts its
allowance and returns the last attempt's results, having recorded one send
per allowed iteration. -/
theorem doAux_exhaust (c : client) (f : Int → SendResult) (randIntn : Int → Int) :
    ∀ (n : Nat) (tries wait status : Int) (body : List Nat) (err : Option GoError)
      (req : Request β) (sent : List (Int × Option β)),
      (∀ j : Int, tries ≤ j → j < tries + ((n + 1 : Nat) : Int) →
        continues c.timeoutOnly (f j) = true) →
      ∃ bs : List (Int × Option β),
        (doAux c (fun k _ => f k) randIntn (n + 1) tries wait status body err req sent).tries
            = tries + ((n + 1 : Nat) : Int) - 1 ∧
        (doAux c (fun k _ => f k) randIntn (n + 1) tries wait status body err req sent).status
            = (f (tries + ((n + 1 : Nat) : Int) - 1)).status ∧
        (doAux c (fun k _ => f k) randIntn (n + 1) tries wait status body err req sent).body
            = (f (tries + ((n + 1 : Nat) : Int) - 1)).body ∧
        (doAux c (fun k _ => f k) randIntn (n + 1) tries wait status body err req sent).err
            = (f (tries + ((n + 1 : Nat) : Int) - 1)).err ∧
        (doAux c (fun k _ => f k) randIntn (n + 1) tries wait status body err req sent).sent
            = sent ++ bs ∧
        bs.length = n + 1 := by
  intro n
  induction n with
  | zero =>
    intro tries wait status body err req sent hall
    have hc : continues c.timeoutOnly (f tries) = true :=
      hall tries (le_refl tries) (by push_cast; omega)
    rw [doAux_succ, if_pos (by simpa using hc)]
    have ht : tries + ((0 + 1 : Nat) : Int) - 1 = tries := by push_cast; omega
    rw [ht]
    exact ⟨[(tries, (bodyReplay tries req).Body)], by simp [doAux], by simp [doAux],
      by simp [doAux], by simp [doAux], by simp [doAux], by simp⟩
  | succ m ih =>
    intro tries wait status body err req sent hall
    have hc : continues c.timeoutOnly (f tries) = true :=
      hall tries (le_refl tries) (by push_cast; omega)
    rw [doAux_succ, if_pos (by simpa using hc)]
    obtain ⟨bs, h1, h2, h3, h4, h5, h6⟩ := ih (tries + 1) (c.bk.Next randIntn wait)
      (f tries).status (f tries).body (f tries).err (bodyReplay tries req)
      (sent ++ [(tries, (bodyReplay tries req).Body)])
      (fun j hj1 hj2 => hall j (by omega) (by push_cast at hj2 ⊢; omega))
    have ht : tries + 1 + ((m + 1 : Nat) : Int) - 1 = tries + ((m + 1 + 1 : Nat) : Int) - 1 := by
      push_cast; omega
    rw [ht] at h1 h2 h3 h4
    refine ⟨(tries, (bodyReplay tries req).Body) :: bs, h1, h2, h3, h4, ?_, ?_⟩
    · rw [h5]; simp
    · simp at h6 ⊢; omega

/-- When the send primitive depends only on the attempt ordinal and every
attempt up to `m` is retry-classified, a loop whose allowance extends past
`m + 1` reaches at least attempt `m + 1`. -/
theorem doAux_reaches (c : client) (f : Int → SendResult) (randIntn : Int → Int)
    (m : Int) :
    ∀ (fuel : Nat) (tries wait status : Int) (body : List Nat) (err : Option GoError)
      (req : Request β) (sent : List (Int × Option β)),
      (∀ j : Int, tries ≤ j → j ≤ m → continues c.timeoutOnly (f j) = true) →
      m + 1 < tries + (fuel : Int) →
      m + 1 ≤ (doAux c (fun k _ => f k) randIntn fuel tries wait status body err req sent).tries := by
  intro fuel
  induction fuel with
  | zero =>
    intro tries wait status body err req sent hall hhi
    simp only [Nat.cast_zero] at hhi
    simp [doAux]
    omega
  | succ n ih =>
    intro tries wait status body err req sent hall hhi
    rw [doAux_succ]
    by_cases hc : continues c.timeoutOnly (f tries) = true
    · rw [if_pos (by simpa using hc)]
      exact ih (tries + 1) (c.bk.Next randIntn wait) (f tries).status (f tries).body
        (f tries).err (bodyReplay tries req)
        (sent ++ [(tries, (bodyReplay tries req).Body)])
        (fun j hj1 hj2 => hall j (by omega) hj2) (by push_cast at hhi ⊢; omega)
    · have htm : m < tries := by
        by_contra hcon
        exact hc (hall tries (le_refl tries) (by omega))
      rw [if_neg (by simpa using hc)]
      simpa using htm

/-- On the first attempt the body-replay phase leaves the request alone. -/
theorem bodyReplay_first (tries : Int) (req : Request β) (h : tries ≤ 1) :
    bodyReplay tries req = req := by
  simp [bodyReplay]
  omega

/-- After the first attempt, with a body and the capability both present,
the body-replay phase installs a fresh body from the capability. -/
theorem bodyReplay_fresh (tries : Int) (req : Request β) (b : β) (g : Unit → β)
    (h : 1 < tries) (hb : req.Body = some b) (hg : req.GetBody = some g) :
    bodyReplay tries req = { req with Body := some (g ()) } := by
  simp [bodyReplay, if_pos h, hb, hg]

/-- When the body or the capability is absent, the body-replay phase leaves
the request alone on every attempt. -/
theorem bodyReplay_absent (tries : Int) (req : Request β)
    (h : req.Body = none ∨ req.GetBody = none) :
    bodyReplay tries req = req := by
  rcases h with h | h <;> simp [bodyReplay, h]

/-- With a body and the capability both present, every send the loop issues
receives the original body on attempt 1 and a fresh body from the
capability on every later attempt; the recorded ordinals never fall below
the entry counter. -/
theorem doAux_body_fresh (c : client) (send : Int → Request β → SendResult)
    (randIntn : Int → Int) (g : Unit → β) :
    ∀ (fuel : Nat) (tries wait status : Int) (body : List Nat) (err : Option GoError)
      (b : β) (req : Request β) (sent : List (Int × Option β)),
      1 ≤ tries → req.Body = some b → req.GetBody = some g →
      ∃ bs : List (Int × Option β),
        (doAux c send randIntn fuel tries wait status body err req sent).sent = sent ++ bs ∧
        ∀ p ∈ bs, tries ≤ p.1 ∧ (p.1 = 1 → p.2 = some b) ∧
          (1 < p.1 → p.2 = some (g ())) := by
  intro fuel
  induction fuel with
  | zero =>
    intro tries wait status body err b req sent h1 hb hg
    exact ⟨[], by simp [doAux], by simp⟩
  | succ n ih =>
    intro tries wait status body err b req sent h1 hb hg
    rw [doAux_succ]
    by_cases ht : 1 < tries
    · rw [bodyReplay_fresh tries req b g ht hb hg]
      have hb2 : ({ req with Body := some (g ()) } : Request β).Body = some (g ()) := rfl
      have hg2 : ({ req with Body := some (g ()) } : Request β).GetBody = some g := by
        simpa using hg
      have hentry : ∀ p : Int × Option β, p = (tries, some (g ())) →
          tries ≤ p.1 ∧ (p.1 = 1 → p.2 = some b) ∧ (1 < p.1 → p.2 = some (g ())) := by
        rintro p rfl
        exact ⟨le_refl tries, fun hq => absurd hq (by omega), fun _ => rfl⟩
      split
      · obtain ⟨bs, hs1, hs2⟩ := ih (tries + 1) (c.bk.Next randIntn wait) _ _ _
          (g ()) { req with Body := some (g ()) }
          (sent ++ [(tries, some (g ()))]) (by omega) hb2 hg2
        refine ⟨(tries, some (g ())) :: bs, by rw [hs1]; simp, ?_⟩
        intro p hp
        rcases List.mem_cons.mp hp with hp | hp
        · exact hentry p hp
        · obtain ⟨q1, q2, q3⟩ := hs2 p hp
          exact ⟨by omega, fun hq => absurd hq (by omega), fun _ => q3 (by omega)⟩
      · refine ⟨[(tries, some (g ()))], by simp, ?_⟩
        intro p hp
        rcases List.mem_singleton.mp hp with hp
        exact hentry p hp
    · have ht1 : tries = 1 := by omega
      rw [bodyReplay_first tries req (by omega), hb]
      have hentry : ∀ p : Int × Option β, p = (tries, some b) →
          tries ≤ p.1 ∧ (p.1 = 1 → p.2 = some b) ∧ (1 < p.1 → p.2 = some (g ())) := by
        rintro p rfl
        exact ⟨le_refl tries, fun _ => rfl, fun hq => absurd hq (by omega)⟩
      split
      · obtain ⟨bs, hs1, hs2⟩ := ih (tries + 1) (c.bk.Next randIntn wait) _ _ _
          b req (sent ++ [(tries, some b)]) (by omega) hb hg
        refine ⟨(tries, some b) :: bs, by rw [hs1]; simp, ?_⟩
        intro p hp
        rcases List.mem_cons.mp hp with hp | hp
        · exact hentry p hp
        · obtain ⟨q1, q2, q3⟩ := hs2 p hp
          exact ⟨by omega, fun hq => absurd hq (by omega), fun hq => q3 hq⟩
      · refine ⟨[(tries, some b)], by simp, ?_⟩
        intro p hp
        rcases List.mem_singleton.mp hp with hp
        exact hentry p hp

/-- With the body or the capability absent, every send the loop issues
receives the request body unchanged. -/
theorem doAux_body_absent (c : client) (send : Int → Request β → SendResult)
    (randIntn : Int → Int) :
    ∀ (fuel : Nat) (tries wait status : Int) (body : List Nat) (err : Option GoError)
      (req : Request β) (sent : List (Int × Option β)),
      req.Body = none ∨ req.GetBody = none →
      ∃ bs : List (Int × Option β),
        (doAux c send randIntn fuel tries wait status body err req sent).sent = sent ++ bs ∧
        ∀ p ∈ bs, p.2 = req.Body := by
  intro fuel
  induction fuel with
  | zero =>
    intro tries wait status body err req sent h
    exact ⟨[], by simp [doAux], by simp⟩
  | succ n ih =>
    intro tries wait status body err req sent h
    rw [doAux_succ, bodyReplay_absent tries req h]
    split
    · obtain ⟨bs, hs1, hs2⟩ := ih (tries + 1) (c.bk.Next randIntn wait) _ _ _
        req (sent ++ [(tries, req.Body)]) h
      refine ⟨(tries, req.Body) :: bs, by rw [hs1]; simp, ?_⟩
      intro p hp
      rcases List.mem_cons.mp hp with hp | hp
      · rw [hp]
      · exact hs2 p hp
    · refine ⟨[(tries, req.Body)], by simp, ?_⟩
      intro p hp
      rw [List.mem_singleton.mp hp]

/-- C1: under `timeoutOnly = true`, once attempt `i` is reached (all prior
attempts were retry-classified), a send error that is not timeout-classified
makes `Do` stop at attempt `i`, returning exactly that attempt's status,
body and error with `tries = i` and exactly `i` sends issued; a
timeout-classified error instead continues to a further attempt whenever
attempts remain. -/
theorem do_timeout_only_fatal (c : client) (f : Int → SendResult)
    (randIntn : Int → Int) (req : Request β) (maxTries i : Int)
    (hto : c.timeoutOnly = true) (h1 : 1 ≤ i) (h2 : i ≤ maxTries)
    (hprior : ∀ j : Int, 1 ≤ j → j < i → continues c.timeoutOnly (f j) = true) :
    ((f i).err.isSome = true → IsTimeoutErr (f i).err = false →
      (c.Do (fun k _ => f k) randIntn req maxTries).tries = i ∧
      (c.Do (fun k _ => f k) randIntn req maxTries).status = (f i).status ∧
      (c.Do (fun k _ => f k) randIntn req maxTries).body = (f i).body ∧
      (c.Do (fun k _ => f k) randIntn req maxTries).err = (f i).err ∧
      (((c.Do (fun k _ => f k) randIntn req maxTries).sent.length : Int) = i)) ∧
    ((f i).err.isSome = true → IsTimeoutErr (f i).err = true → i < maxTries →
      i + 1 ≤ (c.Do (fun k _ => f k) randIntn req maxTries).tries) := by
  constructor
  · intro he hnt
    have hstop : continues c.timeoutOnly (f i) = false := by
      simp [continues, he, hnt, hto]
    obtain ⟨bs, g1, g2, g3, g4, g5, g6⟩ :=
      doAux_stop_at c f randIntn i maxTries.toNat 1 0 0 [] none req []
        h1 (by omega) hprior hstop
    unfold client.Do
    refine ⟨g1, g2, g3, g4, ?_⟩
    rw [g5]
    simp only [List.nil_append]
    omega
  · intro he ht hlt
    have hcont : ∀ j : Int, 1 ≤ j → j ≤ i → continues c.timeoutOnly (f j) = true := by
      intro j hj1 hj2
      rcases lt_or_eq_of_le hj2 with hj | hj
      · exact hprior j hj1 hj
      · subst hj; simp [continues, he, ht, hto]
    unfold client.Do
    exact doAux_reaches c f randIntn i maxTries.toNat 1 0 0 [] none req [] hcont (by omega)

/-- Witness for C1: a send that always fails with a generic (non-timeout)
error, under timeout-only mode with `maxTries = 5`, stops after the first
attempt. -/
theorem do_timeout_only_fatal_witness :
    (client.Do ⟨true, ⟨100, 5000⟩⟩
      (fun _ _ => ⟨0, [], some (GoError.generic "refused")⟩) (fun _ => 0)
      (⟨none, none⟩ : Request Nat) 5).tries = 1 :=
  ((do_timeout_only_fatal ⟨true, ⟨100, 5000⟩⟩
      (fun _ => ⟨0, [], some (GoError.generic "refused")⟩) (fun _ => 0)
      (⟨none, none⟩ : Request Nat) 5 1 rfl (by norm_num) (by norm_num)
      (fun j hj1 hj2 => absurd hj1 (by omega))).1 rfl rfl).1

/-- C2: when every one of the `maxTries` attempts is retry-classified, `Do`
exhausts the loop after exactly `maxTries` sends and surfaces the final
attempt's status, body and error verbatim with `tries = maxTries`. -/
theorem do_exhausts_to_last (c : client) (f : Int → SendResult)
    (randIntn : Int → Int) (req : Request β) (maxTries : Int) (h : 1 ≤ maxTries)
    (hall : ∀ j : Int, 1 ≤ j → j ≤ maxTries → continues c.timeoutOnly (f j) = true) :
    (c.Do (fun k _ => f k) randIntn req maxTries).tries = maxTries ∧
    (c.Do (fun k _ => f k) randIntn req maxTries).status = (f maxTries).status ∧
    (c.Do (fun k _ => f k) randIntn req maxTries).body = (f maxTries).body ∧
    (c.Do (fun k _ => f k) randIntn req maxTries).err = (f maxTries).err ∧
    (((c.Do (fun k _ => f k) randIntn req maxTries).sent.length : Int) = maxTries) := by
  obtain ⟨m, hm⟩ : ∃ m : Nat, maxTries.toNat = m + 1 := ⟨maxTries.toNat - 1, by omega⟩
  unfold client.Do
  rw [hm]
  obtain ⟨bs, g1, g2, g3, g4, g5, g6⟩ := doAux_exhaust c f randIntn m 1 0 0 [] none req []
    (fun j hj1 hj2 => hall j hj1 (by push_cast at hj2 ⊢; omega))
  have hlast : (1 : Int) + ((m + 1 : Nat) : Int) - 1 = maxTries := by push_cast; omega
  rw [hlast] at g1 g2 g3 g4
  refine ⟨g1, g2, g3, g4, ?_⟩
  rw [g5]
  simp only [List.nil_append]
  omega

/-- Witness for C2: a send that always returns status 500 with
`maxTries = 5` exhausts all five attempts and surfaces status 500. -/
theorem do_exhausts_to_last_witness :
    (client.Do ⟨false, ⟨100, 5000⟩⟩ (fun _ _ => ⟨500, [], none⟩) (fun _ => 0)
      (⟨none, none⟩ : Request Nat) 5).tries = 5 ∧
    (client.Do ⟨false, ⟨100, 5000⟩⟩ (fun _ _ => ⟨500, [], none⟩) (fun _ => 0)
      (⟨none, none⟩ : Request Nat) 5).status = 500 :=
  ⟨(do_exhausts_to_last ⟨false, ⟨100, 5000⟩⟩ (fun _ => ⟨500, [], none⟩) (fun _ => 0)
      (⟨none, none⟩ : Request Nat) 5 (by norm_num) (fun j hj1 hj2 => rfl)).1,
    (do_exhausts_to_last ⟨false, ⟨100, 5000⟩⟩ (fun _ => ⟨500, [], none⟩) (fun _ => 0)
      (⟨none, none⟩ : Request Nat) 5 (by norm_num) (fun j hj1 hj2 => rfl)).2.1⟩

/-- C3: once attempt `i` is reached, a send with no error and a status that
`ShouldRetry` rejects makes `Do` stop at attempt `i`, returning that
attempt's status and body with a nil error, `tries = i`, and exactly `i`
sends issued — whatever the status (including 4xx). -/
theorem do_stops_on_non_retry_status (c : client) (f : Int → SendResult)
    (randIntn : Int → Int) (req : Request β) (maxTries i : Int)
    (h1 : 1 ≤ i) (h2 : i ≤ maxTries)
    (hprior : ∀ j : Int, 1 ≤ j → j < i → continues c.timeoutOnly (f j) = true)
    (herr : (f i).err = none) (hstat : ShouldRetry (f i).status = false) :
    (c.Do (fun k _ => f k) randIntn req maxTries).tries = i ∧
    (c.Do (fun k _ => f k) randIntn req maxTries).status = (f i).status ∧
    (c.Do (fun k _ => f k) randIntn req maxTries).body = (f i).body ∧
    (c.Do (fun k _ => f k) randIntn req maxTries).err = none ∧
    (((c.Do (fun k _ => f k) randIntn req maxTries).sent.length : Int) = i) := by
  have hstop : continues c.timeoutOnly (f i) = false := by
    simp [continues, herr, hstat]
  obtain ⟨bs, g1, g2, g3, g4, g5, g6⟩ :=
    doAux_stop_at c f randIntn i maxTries.toNat 1 0 0 [] none req []
      h1 (by omega) hprior hstop
  unfold client.Do
  refine ⟨g1, g2, g3, g4.trans herr, ?_⟩
  rw [g5]
  simp only [List.nil_append]
  omega

/-- Witness for C3: a send that always returns status 200 with
`maxTries = 3` succeeds on the first attempt. -/
theorem do_stops_on_non_retry_status_witness :
    (client.Do ⟨false, ⟨100, 5000⟩⟩ (fun _ _ => ⟨200, [], none⟩) (fun _ => 0)
      (⟨none, none⟩ : Request Nat) 3).tries = 1 ∧
    (client.Do ⟨false, ⟨100, 5000⟩⟩ (fun _ _ => ⟨200, [], none⟩) (fun _ => 0)
      (⟨none, none⟩ : Request Nat) 3).status = 200 :=
  ⟨(do_stops_on_non_retry_status ⟨false, ⟨100, 5000⟩⟩ (fun _ => ⟨200, [], none⟩)
      (fun _ => 0) (⟨none, none⟩ : Request Nat) 3 1 (by norm_num) (by norm_num)
      (fun j hj1 hj2 => absurd hj1 (by omega)) rfl rfl).1,
    (do_stops_on_non_retry_status ⟨false, ⟨100, 5000⟩⟩ (fun _ => ⟨200, [], none⟩)
      (fun _ => 0) (⟨none, none⟩ : Request Nat) 3 1 (by norm_num) (by norm_num)
      (fun j hj1 hj2 => absurd hj1 (by omega)) rfl rfl).2.1⟩

/-- C4: for every behaviour of the send primitive and every
`maxTries ≥ 1`, the `tries` value `Do` returns equals the number of sends
actually issued (the length of the recorded trace) and lies between 1 and
`maxTries`. -/
theorem do_tries_counts_sends (c : client) (send : Int → Request β → SendResult)
    (randIntn : Int → Int) (req : Request β) (maxTries : Int) (h : 1 ≤ maxTries) :
    ((c.Do send randIntn req maxTries).sent.length : Int) =
        (c.Do send randIntn req maxTries).tries ∧
      1 ≤ (c.Do send randIntn req maxTries).tries ∧
      (c.Do send randIntn req maxTries).tries ≤ maxTries := by
  have h0 : 0 < maxTries.toNat := by omega
  obtain ⟨k, hk1, hk2, hk3, hk4⟩ :=
    doAux_count c send randIntn maxTries.toNat 1 0 0 [] none req []
  unfold client.Do
  simp only [List.length_nil] at hk4
  refine ⟨?_, ?_, ?_⟩ <;> omega

/-- Witness for C4: a send that alternates a retryable 500 and a terminal
200 depending on the request, with `maxTries = 3`, still reports a trace
length equal to `tries`, within bounds. -/
theorem do_tries_counts_sends_witness :
    ((client.Do ⟨false, ⟨100, 5000⟩⟩
        (fun k r => if r.Body.isSome ∧ k = 1 then ⟨500, [], none⟩ else ⟨200, [], none⟩)
        (fun _ => 0) (⟨some 7, some (fun _ => 9)⟩ : Request Nat) 3).sent.length : Int) =
      (client.Do ⟨false, ⟨100, 5000⟩⟩
        (fun k r => if r.Body.isSome ∧ k = 1 then ⟨500, [], none⟩ else ⟨200, [], none⟩)
        (fun _ => 0) (⟨some 7, some (fun _ => 9)⟩ : Request Nat) 3).tries ∧
    1 ≤ (client.Do ⟨false, ⟨100, 5000⟩⟩
        (fun k r => if r.Body.isSome ∧ k = 1 then ⟨500, [], none⟩ else ⟨200, [], none⟩)
        (fun _ => 0) (⟨some 7, some (fun _ => 9)⟩ : Request Nat) 3).tries ∧
    (client.Do ⟨false, ⟨100, 5000⟩⟩
        (fun k r => if r.Body.isSome ∧ k = 1 then ⟨500, [], none⟩ else ⟨200, [], none⟩)
        (fun _ => 0) (⟨some 7, some (fun _ => 9)⟩ : Request Nat) 3).tries ≤ 3 :=
  do_tries_counts_sends ⟨false, ⟨100, 5000⟩⟩
    (fun k r => if r.Body.isSome ∧ k = 1 then ⟨500, [], none⟩ else ⟨200, [], none⟩)
    (fun _ => 0) (⟨some 7, some (fun _ => 9)⟩ : Request Nat) 3 (by norm_num)

/-- C9: within one call to `Do`, when the request has a body and the
`GetBody` capability, every send after the first receives a fresh body
obtained from the capability while the first send receives the original
body; when the body or the capability is absent, every send receives the
body unchanged. -/
theorem do_replays_body (c : client) (send : Int → Request β → SendResult)
    (randIntn : Int → Int) (req : Request β) (maxTries : Int) :
    (∀ (b : β) (g : Unit → β), req.Body = some b → req.GetBody = some g →
      ∀ p ∈ (c.Do send randIntn req maxTries).sent,
        (p.1 = 1 → p.2 = some b) ∧ (1 < p.1 → p.2 = some (g ()))) ∧
    ((req.Body = none ∨ req.GetBody = none) →
      ∀ p ∈ (c.Do send randIntn req maxTries).sent, p.2 = req.Body) := by
  constructor
  · intro b g hb hg p hp
    obtain ⟨bs, hs1, hs2⟩ := doAux_body_fresh c send randIntn g maxTries.toNat
      1 0 0 [] none b req [] (by norm_num) hb hg
    unfold client.Do at hp
    rw [hs1] at hp
    simp only [List.nil_append] at hp
    obtain ⟨q1, q2, q3⟩ := hs2 p hp
    exact ⟨q2, q3⟩
  · intro h p hp
    obtain ⟨bs, hs1, hs2⟩ := doAux_body_absent c send randIntn maxTries.toNat
      1 0 0 [] none req [] h
    unfold client.Do at hp
    rw [hs1] at hp
    simp only [List.nil_append] at hp
    exact hs2 p hp

/-- Witness for C9: with body 7, a capability producing 9 and a send that
always returns 500 over 3 attempts, the first send sees body 7 and the
later sends see body 9. -/
theorem do_replays_body_witness :
    ∀ p ∈ (client.Do ⟨false, ⟨100, 5000⟩⟩ (fun _ _ => ⟨500, [], none⟩) (fun _ => 0)
        (⟨some 7, some (fun _ => 9)⟩ : Request Nat) 3).sent,
      (p.1 = 1 → p.2 = some 7) ∧ (1 < p.1 → p.2 = some 9) :=
  (do_replays_body ⟨false, ⟨100, 5000⟩⟩ (fun _ _ => ⟨500, [], none⟩) (fun _ => 0)
    (⟨some 7, some (fun _ => 9)⟩ : Request Nat) 3).1 7 (fun _ => 9) rfl rfl

end GolangWeb
